import Mathlib

/-
Shallow embedding of the simulation core of src/game.js (Camel Race).
Numbers are rationals; the browser random source Math.random is modelled as a
stream of rationals in [0, 1).  Rendering, DOM and canvas drawing are outside
the embedded core (the spec declares them external collaborators); every
state-bearing definition below is translated from src/game.js.
-/

/-- Model of Math.random: an indexed stream of uniform draws, each in [0, 1). -/
structure BRand where
  f : ℕ → ℚ
  hf : ∀ n, 0 ≤ f n ∧ f n < 1

/-- Player state, from the Player class constructor (src/game.js lines 85-105).
The DOM field scoreboardEl is omitted (presentation layer). -/
structure Player where
  name : String
  lane : ℕ
  isBot : Bool
  errorRate : ℚ
  x : ℚ
  y : ℚ
  vy : ℚ
  width : ℚ
  height : ℚ
  gravity : ℚ
  jumpVelocity : ℚ
  doubleJumpAvailable : Bool
  lives : ℤ
  invulnerable : Bool
  invulnTimer : ℚ
  time : ℚ
  out : Bool
  passedObstacles : ℕ
  deriving DecidableEq

/-- Constructor defaults of the Player class (src/game.js lines 85-105). -/
def Player.init (name : String) (lane : ℕ) (isBot : Bool) (errorRate : ℚ) : Player :=
  { name := name, lane := lane, isBot := isBot, errorRate := errorRate,
    x := 150, y := 0, vy := 0, width := 60, height := 40,
    gravity := 2000, jumpVelocity := 700, doubleJumpAvailable := true,
    lives := 3, invulnerable := false, invulnTimer := 0, time := 0,
    out := false, passedObstacles := 0 }

/-- Default player used only to totalise list indexing in statements. -/
def defaultPlayer : Player := Player.init "" 0 false 0

/-- Player.jump (src/game.js lines 111-122). -/
def Player.jump (p : Player) : Player :=
  if p.out then p
  else if p.y = 0 then { p with vy := -p.jumpVelocity, doubleJumpAvailable := true }
  else if p.doubleJumpAvailable then { p with vy := -p.jumpVelocity, doubleJumpAvailable := false }
  else p

/-- Player.updatePhysics (src/game.js lines 128-148): gravity integration,
ground clamp (only when y overshoots strictly past 0), invulnerability
countdown, survival-time accrual. -/
def Player.updatePhysics (p : Player) (dt : ℚ) : Player :=
  if p.out then p else
  let vy1 := p.vy + p.gravity * dt
  let y1 := p.y + vy1 * dt
  let y2 := if 0 < y1 then 0 else y1
  let vy2 := if 0 < y1 then 0 else vy1
  let dj2 := if 0 < y1 then true else p.doubleJumpAvailable
  let it1 := if p.invulnerable then p.invulnTimer - dt else p.invulnTimer
  let inv1 := if p.invulnerable then (if it1 ≤ 0 then false else true) else p.invulnerable
  { p with y := y2, vy := vy2, doubleJumpAvailable := dj2,
           invulnTimer := it1, invulnerable := inv1, time := p.time + dt }

/-- Obstacle descriptor (src/game.js lines 226-282).  The rendering colour
string is reduced to its randomised hue component; the hole colour is the
constant black, recorded as hue 0. -/
structure Obstacle where
  x : ℚ
  type : String
  width : ℚ
  height : ℚ
  hue : ℚ
  deriving DecidableEq

/-- Obstacle constructor switch (src/game.js lines 231-282).  Every tag other
than snake, rock and hole falls through to the spike default case.  Each
Math.random() call consumes one draw from the stream, in source order. -/
def mkObstacle (rng : BRand) (ix : ℕ) (x : ℚ) (ty : String) : Obstacle × ℕ :=
  if ty = "snake" then
    ({ x := x, type := ty, width := 50 + rng.f ix * 30, height := 20 + rng.f (ix + 1) * 10,
       hue := 90 + rng.f (ix + 2) * 60 }, ix + 3)
  else if ty = "rock" then
    ({ x := x, type := ty, width := 40 + rng.f ix * 30, height := 30 + rng.f (ix + 1) * 20,
       hue := 20 + rng.f (ix + 2) * 20 }, ix + 3)
  else if ty = "hole" then
    ({ x := x, type := ty, width := 70 + rng.f ix * 50, height := 1, hue := 0 }, ix + 1)
  else
    ({ x := x, type := ty, width := 50 + rng.f ix * 30, height := 40 + rng.f (ix + 1) * 20,
       hue := 330 + rng.f (ix + 2) * 30 }, ix + 3)

/-- Applying a hit (src/game.js lines 640-649): decrement lives, start the
0.7 s invulnerability window, and mark the player out once lives reach 0
(the source line player.time = player.time is a no-op). -/
def hitPlayer (p : Player) : Player :=
  let p1 := { p with lives := p.lives - 1, invulnerable := true, invulnTimer := 7/10 }
  if p1.lives ≤ 0 then { p1 with out := true } else p1

/-- Per-player collision scan (src/game.js lines 635-653): obstacles in spawn
order; on the first horizontally overlapping obstacle, hit if the player is
grounded (y >= 0) and stop; an airborne overlap keeps scanning. -/
def collideAux : Player → List Obstacle → Player
  | p, [] => p
  | p, o :: rest =>
    if o.x < p.x + p.width ∧ p.x < o.x + o.width then
      if 0 ≤ p.y then hitPlayer p else collideAux p rest
    else collideAux p rest

/-- Collision phase guard (src/game.js line 634): skipped entirely while the
player is invulnerable. -/
def collide (p : Player) (obs : List Obstacle) : Player :=
  if p.invulnerable then p else collideAux p obs

/-- Game.handleBot (src/game.js lines 697-713): look at the first obstacle
whose trailing edge is still ahead of the bot, and jump only when it is
closer than the reaction threshold, the bot is grounded, and the random draw
strictly exceeds errorRate.  The draw is consumed only when the reaction
condition is evaluated, exactly as in the source. -/
def handleBot (speed : ℚ) (rng : BRand) (ix : ℕ) (obs : List Obstacle) (bot : Player) :
    Player × ℕ :=
  match obs.find? (fun o => decide (bot.x < o.x + o.width)) with
  | none => (bot, ix)
  | some o =>
    let distance := o.x - bot.x
    let threshold := bot.jumpVelocity / speed * 200
    if distance < threshold ∧ bot.y = 0 then
      if bot.errorRate < rng.f ix then (bot.jump, ix + 1) else (bot, ix + 1)
    else (bot, ix)

/-- Per-player portion of the tick (src/game.js lines 626-657): bot decision,
physics integration, then collision, for non-out players only. -/
def processPlayer (rng : BRand) (speed dt : ℚ) (obs : List Obstacle) (p : Player) (ix : ℕ) :
    Player × ℕ :=
  if p.out then (p, ix)
  else
    let bres := if p.isBot then handleBot speed rng ix obs p else (p, ix)
    (collide (bres.1.updatePhysics dt) obs, bres.2)

/-- The player loop of the tick, threading the random-stream index. -/
def processPlayers (rng : BRand) (speed dt : ℚ) (obs : List Obstacle) :
    List Player → ℕ → List Player × ℕ
  | [], ix => ([], ix)
  | p :: rest, ix =>
    let r1 := processPlayer rng speed dt obs p ix
    let r2 := processPlayers rng speed dt obs rest r1.2
    (r1.1 :: r2.1, r2.2)

/-- Count of eliminated players (src/game.js line 658). -/
def countOut (ps : List Player) : ℕ := ps.countP (fun p => p.out)

/-- The obstacle type table (src/game.js line 493). -/
def obstacleTypes : List String := ["snake", "rock", "hole", "spike"]

/-- Uniform type pick, types[Math.floor(Math.random() * types.length)]
(src/game.js line 494). -/
def pickType (r : ℚ) : String := obstacleTypes.getD (Int.toNat ⌊r * 4⌋) "spike"

/-- Game.spawnObstacle (src/game.js lines 492-501): uniformly random type, at
x = canvas.width + 50. -/
def spawnObstacle (rng : BRand) (ix : ℕ) (cw : ℚ) : Obstacle × ℕ :=
  mkObstacle rng (ix + 1) (cw + 50) (pickType (rng.f ix))

/-- Game.randomSpawnInterval (src/game.js lines 509-511). -/
def randomSpawnInterval (bmin bmax r : ℚ) : ℚ := bmin + r * (bmax - bmin)

/-- The spawn while-loop (src/game.js lines 619-623), as fuelled structural
recursion: while spawnTimer >= nextSpawnInterval, subtract the interval,
spawn one obstacle at the right edge, and redraw a fresh random interval. -/
def spawnLoopF (rng : BRand) (bmin bmax cw : ℚ) :
    ℕ → ℚ → ℚ → List Obstacle → ℕ → ℚ × ℚ × List Obstacle × ℕ
  | 0, timer, interval, obs, ix => (timer, interval, obs, ix)
  | fuel + 1, timer, interval, obs, ix =>
    if interval ≤ timer then
      let oix := spawnObstacle rng ix cw
      spawnLoopF rng bmin bmax cw fuel (timer - interval)
        (randomSpawnInterval bmin bmax (rng.f oix.2)) (obs ++ [oix.1]) (oix.2 + 1)
    else (timer, interval, obs, ix)

/-- Fuel bound for the spawn loop.  Whenever 0 < bmin <= bmax this many
iterations provably drain every completed interval, so the fuelled loop
coincides with the source while-loop on such states. -/
def spawnFuel (timer interval bmin : ℚ) : ℕ := (⌈(timer - interval) / bmin⌉).toNat + 2

/-- World state of the Game class constructor (src/game.js lines 324-401).
Rendering state (background dunes, parallax offsets, scoreboard DOM) is
omitted; the canvas width feeding spawn positions is an explicit field. -/
structure Game where
  laneCount : ℕ
  playerCount : ℕ
  players : List Player
  obstacles : List Obstacle
  speed : ℚ
  baseSpeed : ℚ
  elapsedTime : ℚ
  nextSpeedIncreaseAt : ℚ
  speedIncreaseFactor : ℚ
  gameOver : Bool
  spawnGapMin : ℚ
  spawnGapMax : ℚ
  baseSpawnGapMin : ℚ
  baseSpawnGapMax : ℚ
  spawnTimer : ℚ
  baseMinSpawnTime : ℚ
  baseMaxSpawnTime : ℚ
  nextSpawnInterval : ℚ
  winnerIndex : Option ℤ
  canvasWidth : ℚ
  rng : BRand
  rix : ℕ

/-- Game.initializePlayers (src/game.js lines 423-444): humans first (default
errorRate 0.1), then bots with errorRate 0.05, then filler bots with
errorRate 1.0 until all three lanes are occupied. -/
def initializePlayers (names : List String) (botCount : ℕ) : List Player :=
  let humans := names.enum.map (fun q => Player.init q.2 q.1 false (1/10))
  let bots := (List.range botCount).map
    (fun b => Player.init ("Bot " ++ toString (b + 1)) (names.length + b) true (1/20))
  let filled := humans ++ bots
  filled ++ (List.range (3 - filled.length)).map
    (fun k => Player.init ("Bot " ++ toString (filled.length + k + 1)) (filled.length + k) true 1)

/-- Game constructor (src/game.js lines 324-401).  The first spawn interval
consumes the first random draw. -/
def Game.init (playerNames : List String) (botCount : ℕ) (canvasWidth : ℚ) (rng : BRand) :
    Game :=
  { laneCount := 3
    playerCount := playerNames.length + botCount
    players := initializePlayers playerNames botCount
    obstacles := []
    speed := 400
    baseSpeed := 400
    elapsedTime := 0
    nextSpeedIncreaseAt := 5
    speedIncreaseFactor := 13/10
    gameOver := false
    spawnGapMin := 300
    spawnGapMax := 800
    baseSpawnGapMin := 300
    baseSpawnGapMax := 800
    spawnTimer := 0
    baseMinSpawnTime := 300 / 400
    baseMaxSpawnTime := 800 / 400
    nextSpawnInterval := randomSpawnInterval (300 / 400) (800 / 400) (rng.f 0)
    winnerIndex := none
    canvasWidth := canvasWidth
    rng := rng
    rix := 1 }

/-- Game.start (src/game.js lines 516-527): reset the spawn timer and redraw
the initial interval before the loop begins. -/
def Game.start (g : Game) : Game :=
  { g with spawnTimer := 0,
           nextSpawnInterval :=
             randomSpawnInterval g.baseMinSpawnTime g.baseMaxSpawnTime (g.rng.f g.rix),
           rix := g.rix + 1 }

/-- Winner fold of Game.endGame (src/game.js lines 751-758): bestTime starts
at negative infinity (modelled by none), winnerIndex at -1, and only a
strictly larger time displaces the champion, so ties keep the first player. -/
def bestIndexGo : List Player → ℕ → ℤ × Option ℚ → ℤ × Option ℚ
  | [], _, acc => acc
  | p :: rest, i, (_, none) => bestIndexGo rest (i + 1) ((i : ℤ), some p.time)
  | p :: rest, i, (wi, some b) =>
    if b < p.time then bestIndexGo rest (i + 1) ((i : ℤ), some p.time)
    else bestIndexGo rest (i + 1) (wi, some b)

/-- Game.endGame (src/game.js lines 748-758), core part: set gameOver and
compute winnerIndex (the scoreboard overlay and fireworks are presentation). -/
def Game.endGame (g : Game) : Game :=
  { g with gameOver := true, winnerIndex := some (bestIndexGo g.players 0 (-1, none)).1 }

/-- Speed after the difficulty check of the tick (src/game.js lines 547-551).
Note the source uses a single if, not a loop. -/
def Game.tickSpeed (g : Game) (dt : ℚ) : ℚ :=
  if g.nextSpeedIncreaseAt ≤ g.elapsedTime + dt then g.speed * g.speedIncreaseFactor
  else g.speed

/-- Next speed-increase threshold after the difficulty check (src/game.js
lines 547-551): advanced by a fixed 5 s step when the bump fires. -/
def Game.tickNextAt (g : Game) (dt : ℚ) : ℚ :=
  if g.nextSpeedIncreaseAt ≤ g.elapsedTime + dt then g.nextSpeedIncreaseAt + 5
  else g.nextSpeedIncreaseAt

/-- Obstacle advance and cull (src/game.js lines 607-614): every obstacle
scrolls left by speed * dt, then fully off-screen obstacles are shifted from
the front. -/
def Game.tickObstaclesPre (g : Game) (dt : ℚ) : List Obstacle :=
  (g.obstacles.map (fun o => { o with x := o.x - g.tickSpeed dt * dt })).dropWhile
    (fun o => decide (o.x + o.width < 0))

/-- Spawn phase of the tick (src/game.js lines 618-623). -/
def Game.tickSpawn (g : Game) (dt : ℚ) : ℚ × ℚ × List Obstacle × ℕ :=
  spawnLoopF g.rng g.baseMinSpawnTime g.baseMaxSpawnTime g.canvasWidth
    (spawnFuel (g.spawnTimer + dt) g.nextSpawnInterval g.baseMinSpawnTime)
    (g.spawnTimer + dt) g.nextSpawnInterval (g.tickObstaclesPre dt) g.rix

/-- Player phase of the tick (src/game.js lines 625-659). -/
def Game.tickPlayers (g : Game) (dt : ℚ) : List Player × ℕ :=
  processPlayers g.rng (g.tickSpeed dt) dt (g.tickSpawn dt).2.2.1 g.players
    (g.tickSpawn dt).2.2.2

/-- Body of Game.update once past the gameOver guard (src/game.js
lines 533-691): difficulty, obstacle advance and cull, spawns, players, and
the end-of-match check once every lane is out. -/
def Game.updateRun (g : Game) (dt : ℚ) : Game :=
  let s := g.tickSpawn dt
  let pr := g.tickPlayers dt
  let g1 := { g with
    elapsedTime := g.elapsedTime + dt
    speed := g.tickSpeed dt
    nextSpeedIncreaseAt := g.tickNextAt dt
    spawnTimer := s.1
    nextSpawnInterval := s.2.1
    obstacles := s.2.2.1
    players := pr.1
    rix := pr.2 }
  if g.laneCount ≤ countOut pr.1 then g1.endGame else g1

/-- Game.update (src/game.js lines 533-691).  The per-tick dt in seconds is
the input; the timestamp subtraction that produces it, and all canvas
painting, are host-side.  The tick performs no validation of dt. -/
def Game.update (g : Game) (dt : ℚ) : Game :=
  if g.gameOver then g else g.updateRun dt

/-- Match states reachable from a fresh game built by the constructor and
start(), under arbitrary tick durations and any random stream. -/
inductive Reachable (names : List String) (botCount : ℕ) (cw : ℚ) (rng : BRand) : Game → Prop
  | base : Reachable names botCount cw rng ((Game.init names botCount cw rng).start)
  | tick (g : Game) (dt : ℚ) :
      Reachable names botCount cw rng g → Reachable names botCount cw rng (g.update dt)

/-- Agent at lane index i of a game state. -/
def agentAt (g : Game) (i : ℕ) : Player := g.players.getD i defaultPlayer

/-- A concrete all-zero random stream, used for concrete scenario states. -/
def rngZero : BRand :=
  { f := fun _ => 0, hf := fun _ => ⟨le_refl 0, by norm_num⟩ }

/-- The concrete match used in scenarios: one human and two bots, canvas
width 800, all-zero random stream. -/
def gEx : Game := (Game.init ["A"] 2 800 rngZero).start

/-- Concrete player used in jump and landing scenarios. -/
def pEx : Player := Player.init "P" 0 false (1/10)

/-- Player on their last life with a recorded survival time, for the
simultaneous-elimination scenario. -/
def lastLifePlayer (nm : String) (lane : ℕ) (t : ℚ) : Player :=
  { Player.init nm lane false (1/10) with lives := 1, time := t }

/-- Concrete match state in which one tick eliminates all three players at
once: every player is on their last life and a single obstacle overlaps the
shared player column. -/
def gW : Game :=
  { laneCount := 3, playerCount := 3,
    players := [lastLifePlayer "A" 0 10, lastLifePlayer "B" 1 20, lastLifePlayer "C" 2 15],
    obstacles := [{ x := 100, type := "rock", width := 200, height := 40, hue := 30 }],
    speed := 400, baseSpeed := 400, elapsedTime := 0, nextSpeedIncreaseAt := 5,
    speedIncreaseFactor := 13/10, gameOver := false,
    spawnGapMin := 300, spawnGapMax := 800, baseSpawnGapMin := 300, baseSpawnGapMax := 800,
    spawnTimer := 0, baseMinSpawnTime := 3/4, baseMaxSpawnTime := 2,
    nextSpawnInterval := 10, winnerIndex := none, canvasWidth := 800,
    rng := rngZero, rix := 0 }

/-- Health part of the per-player state invariant maintained by the tick:
an eliminated player has exactly zero lives, a live player at least one. -/
def PInv (p : Player) : Prop := (p.out = true → p.lives = 0) ∧ (p.out = false → 1 ≤ p.lives)

/-! ### Basic facts about the player operations -/

/-- Jumping never touches health, elimination, timing or geometry fields. -/
theorem jump_preserves (p : Player) :
    p.jump.lives = p.lives ∧ p.jump.out = p.out ∧ p.jump.time = p.time ∧
    p.jump.invulnerable = p.invulnerable ∧ p.jump.invulnTimer = p.invulnTimer ∧
    p.jump.y = p.y ∧ p.jump.x = p.x ∧ p.jump.width = p.width := by
  unfold Player.jump
  repeat' split
  all_goals exact ⟨rfl, rfl, rfl, rfl, rfl, rfl, rfl, rfl⟩

/-- Physics integration never touches lives, the out flag, or geometry. -/
theorem updatePhysics_preserves (p : Player) (dt : ℚ) :
    (p.updatePhysics dt).lives = p.lives ∧ (p.updatePhysics dt).out = p.out ∧
    (p.updatePhysics dt).x = p.x ∧ (p.updatePhysics dt).width = p.width := by
  unfold Player.updatePhysics
  split
  · exact ⟨rfl, rfl, rfl, rfl⟩
  · exact ⟨rfl, rfl, rfl, rfl⟩

/-- Physics integration accrues survival time for a live player. -/
theorem updatePhysics_time (p : Player) (dt : ℚ) (h : p.out = false) :
    (p.updatePhysics dt).time = p.time + dt := by
  unfold Player.updatePhysics
  rw [if_neg (by simp [h])]

/-! ### C5: jump semantics -/

/-- C5: jump is a no-op for an out player; a grounded jump sets vy to
-jumpVelocity and grants the double jump; an airborne jump with the double
jump available resets vy and consumes it; an airborne jump without it changes
nothing; and concretely a grounded jump followed by an airborne jump both
succeed while a third call before landing is a no-op. -/
theorem claim_jump_semantics (p : Player) :
    (p.out = true → p.jump = p) ∧
    (p.out = false → p.y = 0 →
      p.jump.vy = -p.jumpVelocity ∧ p.jump.doubleJumpAvailable = true) ∧
    (p.out = false → p.y ≠ 0 → p.doubleJumpAvailable = true →
      p.jump.vy = -p.jumpVelocity ∧ p.jump.doubleJumpAvailable = false) ∧
    (p.out = false → p.y ≠ 0 → p.doubleJumpAvailable = false → p.jump = p) ∧
    (pEx.jump.vy = -700 ∧
      (pEx.jump.updatePhysics (1/10)).jump.vy = -700 ∧
      (pEx.jump.updatePhysics (1/10)).jump.doubleJumpAvailable = false ∧
      (pEx.jump.updatePhysics (1/10)).jump.jump = (pEx.jump.updatePhysics (1/10)).jump) := by
  refine ⟨?_, ?_, ?_, ?_, ?_⟩
  · intro h; simp [Player.jump, h]
  · intro h1 h2; simp [Player.jump, h1, h2]
  · intro h1 h2 h3; simp [Player.jump, h1, h2, h3]
  · intro h1 h2 h3; simp [Player.jump, h1, h2, h3]
  · refine ⟨rfl, ?_, ?_, ?_⟩ <;> norm_num [pEx, Player.init, Player.jump, Player.updatePhysics]

/-- Witness for C5: the grounded-jump clause evaluated on the concrete
player pEx. -/
theorem claim_jump_semantics_witness :
    pEx.out = false ∧ pEx.y = 0 ∧
    (pEx.jump.vy = -pEx.jumpVelocity ∧ pEx.jump.doubleJumpAvailable = true) :=
  ⟨rfl, rfl, (claim_jump_semantics pEx).2.1 rfl rfl⟩

/-! ### C10: strict ground clamp -/

/-- C10: the ground reset in updatePhysics fires only when the integrated y
is strictly positive, so after any update of a live player y is at most 0;
an integration landing exactly at y = 0 keeps the integrated vy and the
current doubleJumpAvailable; and a state with y = 0 and
doubleJumpAvailable = false is reached by a double jump that lands exactly
on the ground. -/
theorem claim_ground_clamp (p : Player) (dt : ℚ) :
    (p.out = false → (p.updatePhysics dt).y ≤ 0) ∧
    (p.out = false → p.y + (p.vy + p.gravity * dt) * dt = 0 →
      (p.updatePhysics dt).y = 0 ∧
      (p.updatePhysics dt).vy = p.vy + p.gravity * dt ∧
      (p.updatePhysics dt).doubleJumpAvailable = p.doubleJumpAvailable) ∧
    (((pEx.jump.updatePhysics (21/100)).jump.updatePhysics (21/50)).y = 0 ∧
      ((pEx.jump.updatePhysics (21/100)).jump.updatePhysics (21/50)).doubleJumpAvailable
        = false ∧
      ((pEx.jump.updatePhysics (21/100)).jump.updatePhysics (21/50)).vy = 140) := by
  refine ⟨?_, ?_, ?_⟩
  · intro h
    unfold Player.updatePhysics
    rw [if_neg (by simp [h])]
    dsimp only
    split
    · exact le_refl 0
    · next hlt => exact le_of_not_lt hlt
  · intro h hy
    unfold Player.updatePhysics
    rw [if_neg (by simp [h])]
    dsimp only
    rw [if_neg (by rw [hy]; exact lt_irrefl 0), if_neg (by rw [hy]; exact lt_irrefl 0),
      if_neg (by rw [hy]; exact lt_irrefl 0)]
    exact ⟨hy, rfl, rfl⟩
  · refine ⟨?_, ?_, ?_⟩ <;>
      norm_num [pEx, Player.init, Player.jump, Player.updatePhysics]

/-- Witness for C10: both hypothesised clauses evaluated on pEx after its
double jump, with dt = 21/50 landing exactly on the ground. -/
theorem claim_ground_clamp_witness :
    ((pEx.jump.updatePhysics (21/100)).jump.out = false ∧
      (pEx.jump.updatePhysics (21/100)).jump.y +
        ((pEx.jump.updatePhysics (21/100)).jump.vy +
          (pEx.jump.updatePhysics (21/100)).jump.gravity * (21/50)) * (21/50) = 0) ∧
    ((pEx.jump.updatePhysics (21/100)).jump.updatePhysics (21/50)).y ≤ 0 := by
  have h1 : (pEx.jump.updatePhysics (21/100)).jump.out = false := by
    norm_num [pEx, Player.init, Player.jump, Player.updatePhysics]
  have h2 : (pEx.jump.updatePhysics (21/100)).jump.y +
      ((pEx.jump.updatePhysics (21/100)).jump.vy +
        (pEx.jump.updatePhysics (21/100)).jump.gravity * (21/50)) * (21/50) = 0 := by
    norm_num [pEx, Player.init, Player.jump, Player.updatePhysics]
  exact ⟨⟨h1, h2⟩, (claim_ground_clamp ((pEx.jump.updatePhysics (21/100)).jump) (21/50)).1 h1⟩

/-! ### C9: obstacle constructor fallthrough -/

/-- C9: the obstacle constructor is total; any type tag other than snake,
rock and hole falls through to the spike case, whose width lies in [50, 80]
and height in [40, 60]. -/
theorem claim_obstacle_fallthrough (rng : BRand) (ix : ℕ) (x : ℚ) (ty : String)
    (h1 : ty ≠ "snake") (h2 : ty ≠ "rock") (h3 : ty ≠ "hole") :
    50 ≤ (mkObstacle rng ix x ty).1.width ∧ (mkObstacle rng ix x ty).1.width ≤ 80 ∧
    40 ≤ (mkObstacle rng ix x ty).1.height ∧ (mkObstacle rng ix x ty).1.height ≤ 60 := by
  have hr1 := rng.hf ix
  have hr2 := rng.hf (ix + 1)
  simp only [mkObstacle, h1, h2, h3, if_false]
  refine ⟨?_, ?_, ?_, ?_⟩ <;> dsimp only <;> nlinarith [hr1.1, hr1.2, hr2.1, hr2.2]

/-- Witness for C9: the unknown tag banana produces a spike-shaped obstacle
with in-range geometry. -/
theorem claim_obstacle_fallthrough_witness :
    ("banana" ≠ "snake" ∧ "banana" ≠ "rock" ∧ "banana" ≠ "hole") ∧
    (50 ≤ (mkObstacle rngZero 0 0 "banana").1.width ∧
      (mkObstacle rngZero 0 0 "banana").1.width ≤ 80 ∧
      40 ≤ (mkObstacle rngZero 0 0 "banana").1.height ∧
      (mkObstacle rngZero 0 0 "banana").1.height ≤ 60) :=
  ⟨⟨by decide, by decide, by decide⟩,
    claim_obstacle_fallthrough rngZero 0 0 "banana" (by decide) (by decide) (by decide)⟩

/-! ### C8: bot reaction policy -/

/-- C8: a bot with errorRate 1 never jumps, for every draw of the random
stream; and in general handleBot changes the bot only by invoking jump, and
only when the bot is grounded, the nearest upcoming obstacle is closer than
the reaction threshold, and the draw strictly exceeds errorRate. -/
theorem claim_bot_policy (speed : ℚ) (rng : BRand) (ix : ℕ) (obs : List Obstacle)
    (bot : Player) :
    (bot.errorRate = 1 → (handleBot speed rng ix obs bot).1 = bot) ∧
    ((handleBot speed rng ix obs bot).1 ≠ bot →
      bot.y = 0 ∧
      ∃ o, obs.find? (fun o => decide (bot.x < o.x + o.width)) = some o ∧
        o.x - bot.x < bot.jumpVelocity / speed * 200 ∧
        bot.errorRate < rng.f ix ∧
        (handleBot speed rng ix obs bot).1 = bot.jump) := by
  constructor
  · intro he
    unfold handleBot
    cases hf : obs.find? (fun o => decide (bot.x < o.x + o.width)) with
    | none => rfl
    | some o =>
      dsimp only
      split
      · rw [if_neg (by rw [he]; exact not_lt.mpr (le_of_lt (rng.hf ix).2))]
      · rfl
  · intro hne
    unfold handleBot at hne ⊢
    cases hf : obs.find? (fun o => decide (bot.x < o.x + o.width)) with
    | none => rw [hf] at hne; exact absurd rfl hne
    | some o =>
      rw [hf] at hne
      dsimp only at hne ⊢
      by_cases hc : o.x - bot.x < bot.jumpVelocity / speed * 200 ∧ bot.y = 0
      · rw [if_pos hc] at hne ⊢
        by_cases hd : bot.errorRate < rng.f ix
        · rw [if_pos hd]
          exact ⟨hc.2, o, rfl, hc.1, hd, rfl⟩
        · rw [if_neg hd] at hne; exact absurd rfl hne
      · rw [if_neg hc] at hne; exact absurd rfl hne

/-- Witness for C8: a filler bot (errorRate 1) facing a directly overlapping
obstacle still does not jump. -/
theorem claim_bot_policy_witness :
    (Player.init "Bot 3" 2 true 1).errorRate = 1 ∧
    (handleBot 400 rngZero 0 [{ x := 160, type := "rock", width := 50, height := 40, hue := 30 }]
      (Player.init "Bot 3" 2 true 1)).1 = Player.init "Bot 3" 2 true 1 :=
  ⟨rfl, (claim_bot_policy 400 rngZero 0
    [{ x := 160, type := "rock", width := 50, height := 40, hue := 30 }]
    (Player.init "Bot 3" 2 true 1)).1 rfl⟩

/-! ### C4: collision, lives and the invulnerability window -/

/-- Fields of a player immediately after a hit is applied. -/
theorem hitPlayer_fields (p : Player) :
    (hitPlayer p).lives = p.lives - 1 ∧ (hitPlayer p).invulnerable = true ∧
    (hitPlayer p).invulnTimer = 7/10 ∧ (hitPlayer p).time = p.time ∧
    ((hitPlayer p).out = true ↔ (p.lives - 1 ≤ 0 ∨ p.out = true)) := by
  unfold hitPlayer
  dsimp only
  split
  · next hle => simp [hle]
  · next hgt => simp [hgt]

/-- The collision scan applies the hit as soon as some obstacle in the list
overlaps a grounded player. -/
theorem collideAux_hit (p : Player) (hy : 0 ≤ p.y) :
    ∀ obs : List Obstacle,
      (∃ o ∈ obs, o.x < p.x + p.width ∧ p.x < o.x + o.width) →
      collideAux p obs = hitPlayer p
  | [], h => absurd h (by simp)
  | o :: rest, h => by
    unfold collideAux
    by_cases hov : o.x < p.x + p.width ∧ p.x < o.x + o.width
    · rw [if_pos hov, if_pos hy]
    · rw [if_neg hov]
      apply collideAux_hit p hy rest
      rcases h with ⟨o2, ho2, hov2⟩
      rcases List.mem_cons.mp ho2 with h1 | h2
      · exact absurd (h1 ▸ hov2) hov
      · exact ⟨o2, h2, hov2⟩

/-- The collision scan either leaves the player unchanged or applies exactly
one hit, and a hit happens only for a grounded player with an overlapping
obstacle in the list. -/
theorem collideAux_cases (p : Player) :
    ∀ obs : List Obstacle,
      collideAux p obs = p ∨
      (collideAux p obs = hitPlayer p ∧ 0 ≤ p.y ∧
        ∃ o ∈ obs, o.x < p.x + p.width ∧ p.x < o.x + o.width)
  | [] => Or.inl rfl
  | o :: rest => by
    unfold collideAux
    by_cases hov : o.x < p.x + p.width ∧ p.x < o.x + o.width
    · rw [if_pos hov]
      by_cases hy : 0 ≤ p.y
      · rw [if_pos hy]
        exact Or.inr ⟨rfl, hy, o, List.mem_cons_self o rest, hov⟩
      · rw [if_neg hy]
        rcases collideAux_cases p rest with h | ⟨he, hy2, o2, ho2, hov2⟩
        · exact Or.inl h
        · exact Or.inr ⟨he, hy2, o2, List.mem_cons_of_mem o ho2, hov2⟩
    · rw [if_neg hov]
      rcases collideAux_cases p rest with h | ⟨he, hy2, o2, ho2, hov2⟩
      · exact Or.inl h
      · exact Or.inr ⟨he, hy2, o2, List.mem_cons_of_mem o ho2, hov2⟩

/-- C4: a non-out, non-invulnerable, grounded player overlapped by some
obstacle loses exactly one life (even if several obstacles overlap), with the
0.7 s invulnerability window started; and an invulnerable player never loses
a life to an overlap. -/
theorem claim_collision_rules :
    (∀ (p : Player) (obs : List Obstacle),
      p.out = false → p.invulnerable = false → 0 ≤ p.y →
      (∃ o ∈ obs, o.x < p.x + p.width ∧ p.x < o.x + o.width) →
      (collide p obs).lives = p.lives - 1 ∧ (collide p obs).invulnerable = true ∧
      (collide p obs).invulnTimer = 7/10) ∧
    (∀ (p : Player) (obs : List Obstacle), p.invulnerable = true → collide p obs = p) := by
  constructor
  · intro p obs hout hinv hy hov
    unfold collide
    rw [if_neg (by simp [hinv]), collideAux_hit p hy obs hov]
    exact ⟨(hitPlayer_fields p).1, (hitPlayer_fields p).2.1, (hitPlayer_fields p).2.2.1⟩
  · intro p obs hinv
    unfold collide
    rw [if_pos (by simp [hinv])]

/-- Witness for C4: a concrete grounded player overlapped by two obstacles
loses exactly one life, and the invulnerable variant loses none. -/
theorem claim_collision_rules_witness :
    (pEx.out = false ∧ pEx.invulnerable = false ∧ (0 : ℚ) ≤ pEx.y ∧
      (collide pEx [{ x := 100, type := "rock", width := 200, height := 40, hue := 30 },
        { x := 120, type := "spike", width := 60, height := 50, hue := 340 }]).lives
        = pEx.lives - 1) ∧
    collide { pEx with invulnerable := true }
      [{ x := 100, type := "rock", width := 200, height := 40, hue := 30 }]
      = { pEx with invulnerable := true } := by
  have hov : ∃ o ∈ [({ x := 100, type := "rock", width := 200, height := 40, hue := 30 } :
      Obstacle), { x := 120, type := "spike", width := 60, height := 50, hue := 340 }],
      o.x < pEx.x + pEx.width ∧ pEx.x < o.x + o.width := by
    refine ⟨{ x := 100, type := "rock", width := 200, height := 40, hue := 30 }, by simp, ?_⟩
    norm_num [pEx, Player.init]
  refine ⟨⟨rfl, rfl, le_refl 0, ?_⟩, ?_⟩
  · exact (claim_collision_rules.1 pEx _ rfl rfl (le_refl 0) hov).1
  · exact claim_collision_rules.2 { pEx with invulnerable := true } _ rfl

/-! ### Tick-level projection facts -/

/-- Once gameOver is set, the tick returns immediately without any change. -/
theorem update_gameOver (g : Game) (dt : ℚ) (h : g.gameOver = true) : g.update dt = g := by
  unfold Game.update
  rw [if_pos (by simp [h])]

/-- Field values of the state produced by a live tick. -/
theorem update_proj (g : Game) (dt : ℚ) (h : g.gameOver = false) :
    (g.update dt).speed = g.tickSpeed dt ∧
    (g.update dt).nextSpeedIncreaseAt = g.tickNextAt dt ∧
    (g.update dt).elapsedTime = g.elapsedTime + dt ∧
    (g.update dt).spawnTimer = (g.tickSpawn dt).1 ∧
    (g.update dt).nextSpawnInterval = (g.tickSpawn dt).2.1 ∧
    (g.update dt).players = (g.tickPlayers dt).1 ∧
    (g.update dt).baseMinSpawnTime = g.baseMinSpawnTime ∧
    (g.update dt).baseMaxSpawnTime = g.baseMaxSpawnTime ∧
    (g.update dt).laneCount = g.laneCount := by
  unfold Game.update Game.updateRun
  rw [if_neg (by simp [h])]
  dsimp only
  split
  · exact ⟨rfl, rfl, rfl, rfl, rfl, rfl, rfl, rfl, rfl⟩
  · exact ⟨rfl, rfl, rfl, rfl, rfl, rfl, rfl, rfl, rfl⟩

/-! ### C1: difficulty bumps -/

attribute [local semireducible] Rat.add Rat.sub Rat.mul Rat.inv Rat.ofScientific in
/-- Counterexample to C1 as stated: from elapsedTime 0 and
nextSpeedIncreaseAt 5, a single 12-second tick applies only one speed
multiplication (speed 400 becomes 520, not 676) and leaves
nextSpeedIncreaseAt at 10, not 15. -/
theorem claim_difficulty_cex :
    gEx.elapsedTime = 0 ∧ gEx.nextSpeedIncreaseAt = 5 ∧ gEx.speed = 400 ∧
    (gEx.update 12).elapsedTime = 12 ∧
    (gEx.update 12).speed = 520 ∧
    (gEx.update 12).nextSpeedIncreaseAt = 10 ∧
    ¬((gEx.update 12).nextSpeedIncreaseAt = 15) := by decide

attribute [local semireducible] Rat.add Rat.sub Rat.mul Rat.inv Rat.ofScientific in
/-- C1 (amended): the difficulty check is an if, not a loop, so a tick that
crosses the threshold applies exactly one multiplication by
speedIncreaseFactor and advances nextSpeedIncreaseAt by exactly 5, however
far elapsedTime overshoots; concretely the 12-second tick leaves speed 520
and threshold 10, and the pending bump fires only on the following tick,
reaching speed 676 and threshold 15. -/
theorem claim_difficulty_one_bump (g : Game) (dt : ℚ) (h0 : g.gameOver = false)
    (h1 : g.nextSpeedIncreaseAt ≤ g.elapsedTime + dt) :
    (g.update dt).speed = g.speed * g.speedIncreaseFactor ∧
    (g.update dt).nextSpeedIncreaseAt = g.nextSpeedIncreaseAt + 5 ∧
    (g.update dt).elapsedTime = g.elapsedTime + dt ∧
    ((gEx.update 12).speed = 520 ∧ (gEx.update 12).nextSpeedIncreaseAt = 10 ∧
      ((gEx.update 12).update 0).speed = 676 ∧
      ((gEx.update 12).update 0).nextSpeedIncreaseAt = 15) := by
  have hp := update_proj g dt h0
  refine ⟨?_, ?_, hp.2.2.1, by decide⟩
  · rw [hp.1]; unfold Game.tickSpeed; rw [if_pos h1]
  · rw [hp.2.1]; unfold Game.tickNextAt; rw [if_pos h1]

attribute [local semireducible] Rat.add Rat.sub Rat.mul Rat.inv Rat.ofScientific in
/-- Witness for C1 (amended) at the concrete scenario state. -/
theorem claim_difficulty_one_bump_witness :
    (gEx.gameOver = false ∧ gEx.nextSpeedIncreaseAt ≤ gEx.elapsedTime + 12) ∧
    (gEx.update 12).speed = gEx.speed * gEx.speedIncreaseFactor :=
  ⟨⟨by decide, by decide⟩,
    (claim_difficulty_one_bump gEx 12 (by decide) (by decide)).1⟩

/-! ### C2: no validation of dt -/

attribute [local semireducible] Rat.add Rat.sub Rat.mul Rat.inv Rat.ofScientific in
/-- Counterexample to C2 as stated: a negative dt is not rejected; the tick
runs and updates the physics state (elapsedTime becomes -1, and the first
player integrates a full physics step with the negative dt). -/
theorem claim_dt_validation_cex :
    gEx.elapsedTime = 0 ∧ (gEx.update (-1)).elapsedTime = -1 ∧
    ((gEx.update (-1)).players.getD 0 defaultPlayer).time = -1 := by decide

/-- C2 (amended): the tick entry point performs no validation of dt at all:
for every rational dt, including negative ones, a live tick applies dt
directly to the world clock and the physics updates; there is no InvalidInput
signal or rejection path in the code.  NaN and infinities are outside the
rational model. -/
theorem claim_dt_unvalidated (g : Game) (dt : ℚ) (h0 : g.gameOver = false) :
    (g.update dt).elapsedTime = g.elapsedTime + dt ∧
    (g.update dt).players = (g.tickPlayers dt).1 :=
  ⟨(update_proj g dt h0).2.2.1, (update_proj g dt h0).2.2.2.2.2.1⟩

attribute [local semireducible] Rat.add Rat.sub Rat.mul Rat.inv Rat.ofScientific in
/-- Witness for C2 (amended): the live tick at dt = -1 on the concrete
scenario state. -/
theorem claim_dt_unvalidated_witness :
    gEx.gameOver = false ∧ (gEx.update (-1)).elapsedTime = gEx.elapsedTime + (-1) :=
  ⟨by decide, (claim_dt_unvalidated gEx (-1) (by decide)).1⟩

/-! ### C6: spawn scheduler -/

/-- If the timer is already below the pending interval, the spawn loop exits
at once, whatever the fuel. -/
theorem spawnLoopF_exit (rng : BRand) (bmin bmax cw : ℚ) :
    ∀ (fuel : ℕ) (timer interval : ℚ) (obs : List Obstacle) (ix : ℕ),
      timer < interval →
      (spawnLoopF rng bmin bmax cw fuel timer interval obs ix).1 <
        (spawnLoopF rng bmin bmax cw fuel timer interval obs ix).2.1
  | 0, _, _, _, _, h => h
  | fuel + 1, timer, interval, obs, ix, h => by
    unfold spawnLoopF
    rw [if_neg (not_le.mpr h)]
    exact h

/-- Every freshly drawn interval is at least bmin when the draw is
nonnegative and bmin is at most bmax. -/
theorem randomSpawnInterval_lb (bmin bmax r : ℚ) (hr : 0 ≤ r) (hbb : bmin ≤ bmax) :
    bmin ≤ randomSpawnInterval bmin bmax r := by
  unfold randomSpawnInterval
  nlinarith

/-- With the fuel bound met, the spawn loop drains every completed interval:
on exit the timer is strictly below the pending interval, so no due spawn is
ever dropped however large dt was. -/
theorem spawnLoopF_complete (rng : BRand) (bmin bmax cw : ℚ) (hb : 0 < bmin)
    (hbb : bmin ≤ bmax) :
    ∀ (fuel : ℕ) (timer interval : ℚ) (obs : List Obstacle) (ix : ℕ),
      (⌈(timer - interval) / bmin⌉).toNat + 1 ≤ fuel →
      (spawnLoopF rng bmin bmax cw fuel timer interval obs ix).1 <
        (spawnLoopF rng bmin bmax cw fuel timer interval obs ix).2.1 := by
  intro fuel
  induction fuel with
  | zero => intro timer interval obs ix hfuel; omega
  | succ n ih =>
    intro timer interval obs ix hfuel
    by_cases hc : interval ≤ timer
    · unfold spawnLoopF
      rw [if_pos hc]
      have hr := (rng.hf (spawnObstacle rng ix cw).2).1
      have hint : bmin ≤ randomSpawnInterval bmin bmax (rng.f (spawnObstacle rng ix cw).2) :=
        randomSpawnInterval_lb bmin bmax (rng.f (spawnObstacle rng ix cw).2) hr hbb
      by_cases h2 : timer - interval <
          randomSpawnInterval bmin bmax (rng.f (spawnObstacle rng ix cw).2)
      · exact spawnLoopF_exit rng bmin bmax cw n _ _ _ _ h2
      · push_neg at h2
        apply ih
        have hx : bmin ≤ timer - interval := le_trans hint h2
        have hxpos : 0 < timer - interval := lt_of_lt_of_le hb hx
        have hA : ⌈(timer - interval -
            randomSpawnInterval bmin bmax (rng.f (spawnObstacle rng ix cw).2)) / bmin⌉ ≤
            ⌈(timer - interval) / bmin⌉ - 1 := by
          have hmono : (timer - interval -
              randomSpawnInterval bmin bmax (rng.f (spawnObstacle rng ix cw).2)) / bmin ≤
              (timer - interval - bmin) / bmin :=
            (div_le_div_iff_of_pos_right hb).mpr (by linarith)
          have heq : (timer - interval - bmin) / bmin = (timer - interval) / bmin - 1 := by
            field_simp
          calc ⌈(timer - interval -
                randomSpawnInterval bmin bmax (rng.f (spawnObstacle rng ix cw).2)) / bmin⌉
              ≤ ⌈(timer - interval - bmin) / bmin⌉ := Int.ceil_le_ceil hmono
            _ = ⌈(timer - interval) / bmin - 1⌉ := by rw [heq]
            _ = ⌈(timer - interval) / bmin⌉ - 1 := by
                exact_mod_cast Int.ceil_sub_int ((timer - interval) / bmin) 1
        have hB : 1 ≤ ⌈(timer - interval) / bmin⌉ := by
          have hp : (0 : ℚ) < (timer - interval) / bmin := div_pos hxpos hb
          exact Int.ceil_pos.mpr hp
        omega
    · unfold spawnLoopF
      rw [if_neg hc]
      exact lt_of_not_le hc

/-- The timer, interval and random-index outputs of the spawn loop do not
depend on the obstacle list it is appending to. -/
theorem spawnLoopF_obs_indep (rng : BRand) (bmin bmax cw : ℚ) :
    ∀ (fuel : ℕ) (timer interval : ℚ) (obs1 obs2 : List Obstacle) (ix : ℕ),
      (spawnLoopF rng bmin bmax cw fuel timer interval obs1 ix).1 =
        (spawnLoopF rng bmin bmax cw fuel timer interval obs2 ix).1 ∧
      (spawnLoopF rng bmin bmax cw fuel timer interval obs1 ix).2.1 =
        (spawnLoopF rng bmin bmax cw fuel timer interval obs2 ix).2.1 ∧
      (spawnLoopF rng bmin bmax cw fuel timer interval obs1 ix).2.2.2 =
        (spawnLoopF rng bmin bmax cw fuel timer interval obs2 ix).2.2.2
  | 0, _, _, _, _, _ => ⟨rfl, rfl, rfl⟩
  | fuel + 1, timer, interval, obs1, obs2, ix => by
    unfold spawnLoopF
    by_cases hc : interval ≤ timer
    · rw [if_pos hc, if_pos hc]
      exact spawnLoopF_obs_indep rng bmin bmax cw fuel _ _ _ _ _
    · rw [if_neg hc, if_neg hc]
      exact ⟨rfl, rfl, rfl⟩

/-- The fuelled loop with the fuel used by the tick drains all due spawns. -/
theorem tickSpawn_complete (g : Game) (dt : ℚ) (hb : 0 < g.baseMinSpawnTime)
    (hbb : g.baseMinSpawnTime ≤ g.baseMaxSpawnTime) :
    (g.tickSpawn dt).1 < (g.tickSpawn dt).2.1 := by
  unfold Game.tickSpawn
  apply spawnLoopF_complete g.rng g.baseMinSpawnTime g.baseMaxSpawnTime g.canvasWidth hb hbb
  unfold spawnFuel
  omega

attribute [local semireducible] Rat.add Rat.sub Rat.mul Rat.inv Rat.ofScientific in
/-- C6: the spawn-time bounds are derived once from the pixel gap range over
the initial speed (3/4 s and 2 s), no tick ever changes them; every freshly
drawn interval lies in [baseMinSpawnTime, baseMaxSpawnTime]; a live tick
drains every completed interval however large dt is (on exit the timer is
strictly below the pending interval); and the timer and interval produced by
a tick do not depend on the current speed. -/
theorem claim_spawn_scheduler (names : List String) (botCount : ℕ) (cw : ℚ) (rng : BRand)
    (g : Game) (dt : ℚ) (s2 : ℚ) (h0 : g.gameOver = false)
    (hb : 0 < g.baseMinSpawnTime) (hbb : g.baseMinSpawnTime ≤ g.baseMaxSpawnTime) :
    ((Game.init names botCount cw rng).baseMinSpawnTime = 3/4 ∧
      (Game.init names botCount cw rng).baseMaxSpawnTime = 2 ∧
      (Game.init names botCount cw rng).baseSpeed = 400 ∧
      (Game.init names botCount cw rng).baseSpawnGapMin = 300 ∧
      (Game.init names botCount cw rng).baseSpawnGapMax = 800) ∧
    ((g.update dt).baseMinSpawnTime = g.baseMinSpawnTime ∧
      (g.update dt).baseMaxSpawnTime = g.baseMaxSpawnTime) ∧
    (∀ r : ℚ, 0 ≤ r → r < 1 → g.baseMinSpawnTime ≤
        randomSpawnInterval g.baseMinSpawnTime g.baseMaxSpawnTime r ∧
      randomSpawnInterval g.baseMinSpawnTime g.baseMaxSpawnTime r ≤ g.baseMaxSpawnTime) ∧
    (g.update dt).spawnTimer < (g.update dt).nextSpawnInterval ∧
    (({ g with speed := s2 } : Game).update dt).spawnTimer = (g.update dt).spawnTimer ∧
    (({ g with speed := s2 } : Game).update dt).nextSpawnInterval =
      (g.update dt).nextSpawnInterval := by
  have hp := update_proj g dt h0
  have hp2 := update_proj { g with speed := s2 } dt h0
  refine ⟨⟨by norm_num [Game.init], by norm_num [Game.init], rfl, rfl, rfl⟩,
    ⟨hp.2.2.2.2.2.2.1, hp.2.2.2.2.2.2.2.1⟩, ?_, ?_, ?_, ?_⟩
  · intro r hr0 hr1
    constructor
    · exact randomSpawnInterval_lb _ _ _ hr0 hbb
    · unfold randomSpawnInterval
      nlinarith
  · rw [hp.2.2.2.1, hp.2.2.2.2.1]
    exact tickSpawn_complete g dt hb hbb
  · rw [hp.2.2.2.1, hp2.2.2.2.1]
    unfold Game.tickSpawn
    exact (spawnLoopF_obs_indep g.rng g.baseMinSpawnTime g.baseMaxSpawnTime g.canvasWidth
      _ _ _ _ _ _).1
  · rw [hp.2.2.2.2.1, hp2.2.2.2.2.1]
    unfold Game.tickSpawn
    exact (spawnLoopF_obs_indep g.rng g.baseMinSpawnTime g.baseMaxSpawnTime g.canvasWidth
      _ _ _ _ _ _).2.1

attribute [local semireducible] Rat.add Rat.sub Rat.mul Rat.inv Rat.ofScientific in
/-- Witness for C6: the concrete scenario state with a 12-second stall tick
and an alternative speed of 1000. -/
theorem claim_spawn_scheduler_witness :
    (gEx.gameOver = false ∧ 0 < gEx.baseMinSpawnTime ∧
      gEx.baseMinSpawnTime ≤ gEx.baseMaxSpawnTime) ∧
    (gEx.update 12).spawnTimer < (gEx.update 12).nextSpawnInterval :=
  ⟨⟨by decide, by decide, by decide⟩,
    (claim_spawn_scheduler ["A"] 2 800 rngZero gEx 12 1000 (by decide) (by decide)
      (by decide)).2.2.2.1⟩

/-! ### C7: terminal transition and winner selection -/

/-- Generalised invariant of the winner fold: starting from a current
champion, the fold returns a best time dominating every element, and either
keeps the champion or moves to the first strictly better element. -/
theorem bestIndexGo_some (ps : List Player) :
    ∀ (i : ℕ) (wi : ℤ) (b : ℚ),
      ∃ wr br, bestIndexGo ps i (wi, some b) = (wr, some br) ∧ b ≤ br ∧
        (∀ j, j < ps.length → (ps.getD j defaultPlayer).time ≤ br) ∧
        ((wr = wi ∧ br = b) ∨
          ∃ k, k < ps.length ∧ wr = (i : ℤ) + k ∧ br = (ps.getD k defaultPlayer).time ∧
            b < br ∧ ∀ j, j < k → (ps.getD j defaultPlayer).time < br) := by
  induction ps with
  | nil =>
    intro i wi b
    exact ⟨wi, b, rfl, le_refl b, by simp, Or.inl ⟨rfl, rfl⟩⟩
  | cons p rest ih =>
    intro i wi b
    by_cases hlt : b < p.time
    · have step : bestIndexGo (p :: rest) i (wi, some b) =
          bestIndexGo rest (i + 1) ((i : ℤ), some p.time) := by
        show (if b < p.time then bestIndexGo rest (i + 1) ((i : ℤ), some p.time)
          else bestIndexGo rest (i + 1) (wi, some b)) =
          bestIndexGo rest (i + 1) ((i : ℤ), some p.time)
        rw [if_pos hlt]
      obtain ⟨wr, br, heq, hte, hall, hd⟩ := ih (i + 1) (i : ℤ) p.time
      refine ⟨wr, br, step ▸ heq, le_of_lt (lt_of_lt_of_le hlt hte), ?_, ?_⟩
      · intro j hj
        cases j with
        | zero => simpa using hte
        | succ j2 =>
          have hh := hall j2 (by simpa using hj)
          simpa using hh
      · rcases hd with ⟨hwr, hbr⟩ | ⟨k, hk, hwr, hbr, hblt, hstrict⟩
        · refine Or.inr ⟨0, by simp, ?_, by simpa using hbr, hbr ▸ hlt, ?_⟩
          · rw [hwr]; push_cast; ring
          · intro j hj; omega
        · refine Or.inr ⟨k + 1, by simpa using hk, ?_, by simpa using hbr,
            lt_trans hlt hblt, ?_⟩
          · rw [hwr]; push_cast; ring
          · intro j hj
            cases j with
            | zero => simpa using hblt
            | succ j2 =>
              have hh := hstrict j2 (by omega)
              simpa using hh
    · have hge : p.time ≤ b := le_of_not_lt hlt
      have step : bestIndexGo (p :: rest) i (wi, some b) =
          bestIndexGo rest (i + 1) (wi, some b) := by
        show (if b < p.time then bestIndexGo rest (i + 1) ((i : ℤ), some p.time)
          else bestIndexGo rest (i + 1) (wi, some b)) =
          bestIndexGo rest (i + 1) (wi, some b)
        rw [if_neg hlt]
      obtain ⟨wr, br, heq, hte, hall, hd⟩ := ih (i + 1) wi b
      refine ⟨wr, br, step ▸ heq, hte, ?_, ?_⟩
      · intro j hj
        cases j with
        | zero => simpa using le_trans hge hte
        | succ j2 =>
          have hh := hall j2 (by simpa using hj)
          simpa using hh
      · rcases hd with ⟨hwr, hbr⟩ | ⟨k, hk, hwr, hbr, hblt, hstrict⟩
        · exact Or.inl ⟨hwr, hbr⟩
        · refine Or.inr ⟨k + 1, by simpa using hk, ?_, by simpa using hbr, hblt, ?_⟩
          · rw [hwr]; push_cast; ring
          · intro j hj
            cases j with
            | zero => simpa using lt_of_le_of_lt hge hblt
            | succ j2 =>
              have hh := hstrict j2 (by omega)
              simpa using hh

/-- The winner fold started the way endGame starts it (bestTime negative
infinity, winnerIndex -1) returns the index of the first player attaining
the maximum survival time. -/
theorem bestIndexGo_spec (ps : List Player) (hne : ps ≠ []) :
    ∃ k, k < ps.length ∧ (bestIndexGo ps 0 (-1, none)).1 = (k : ℤ) ∧
      (∀ j, j < ps.length →
        (ps.getD j defaultPlayer).time ≤ (ps.getD k defaultPlayer).time) ∧
      (∀ j, j < k → (ps.getD j defaultPlayer).time < (ps.getD k defaultPlayer).time) := by
  cases ps with
  | nil => exact absurd rfl hne
  | cons p rest =>
    have step : bestIndexGo (p :: rest) 0 (-1, none) =
        bestIndexGo rest 1 ((0 : ℤ), some p.time) := rfl
    obtain ⟨wr, br, heq, hte, hall, hd⟩ := bestIndexGo_some rest 1 0 p.time
    rcases hd with ⟨hwr, hbr⟩ | ⟨k, hk, hwr, hbr, hblt, hstrict⟩
    · refine ⟨0, by simp, ?_, ?_, ?_⟩
      · rw [step, heq]; simpa using hwr
      · intro j hj
        cases j with
        | zero => exact le_refl _
        | succ j2 =>
          have hh := hall j2 (by simpa using hj)
          rw [hbr] at hh
          simpa using hh
      · intro j hj; omega
    · refine ⟨k + 1, by simpa using hk, ?_, ?_, ?_⟩
      · rw [step, heq]
        simp only
        rw [hwr]; push_cast; ring
      · intro j hj
        cases j with
        | zero =>
          have hh := le_of_lt hblt
          rw [hbr] at hh
          simpa using hh
        | succ j2 =>
          have hh := hall j2 (by simpa using hj)
          rw [hbr] at hh
          simpa using hh
      · intro j hj
        cases j with
        | zero =>
          have hh := hblt
          rw [hbr] at hh
          simpa using hh
        | succ j2 =>
          have hh := hstrict j2 (by omega)
          rw [hbr] at hh
          simpa using hh

/-- End-of-match behaviour of a live tick: the terminal state is entered
exactly when the out count reaches the lane count, and then the winner index
is the result of the winner fold over the final player list. -/
theorem update_end_state (g : Game) (dt : ℚ) (h : g.gameOver = false) :
    ((g.update dt).gameOver = true ↔ g.laneCount ≤ countOut ((g.update dt).players)) ∧
    ((g.update dt).gameOver = true →
      (g.update dt).winnerIndex = some (bestIndexGo ((g.update dt).players) 0 (-1, none)).1) := by
  unfold Game.update Game.updateRun
  rw [if_neg (by simp [h])]
  dsimp only
  split
  · next hif => exact ⟨iff_of_true rfl hif, fun _ => rfl⟩
  · next hif =>
    constructor
    · exact iff_of_false (by simp [h]) hif
    · intro habs
      exact absurd habs (by simp [h])

/-- C7: a tick on a finished match changes nothing (the terminal transition
happens at most once); a live tick enters the terminal state exactly when the
number of out players reaches the lane count; and on that transition the
winner index is the first player attaining the maximum frozen survival time
(ties favour the earlier player). -/
theorem claim_match_end (g : Game) (dt : ℚ) :
    (g.gameOver = true → g.update dt = g) ∧
    (g.gameOver = false →
      ((g.update dt).gameOver = true ↔ g.laneCount ≤ countOut ((g.update dt).players))) ∧
    (g.gameOver = false → (g.update dt).gameOver = true → (g.update dt).players ≠ [] →
      ∃ k, k < (g.update dt).players.length ∧
        (g.update dt).winnerIndex = some (k : ℤ) ∧
        (∀ j, j < (g.update dt).players.length →
          (agentAt (g.update dt) j).time ≤ (agentAt (g.update dt) k).time) ∧
        (∀ j, j < k → (agentAt (g.update dt) j).time < (agentAt (g.update dt) k).time)) := by
  refine ⟨fun h => update_gameOver g dt h, fun h => (update_end_state g dt h).1, ?_⟩
  intro h hend hne
  obtain ⟨k, hk, hkeq, hmax, hstrict⟩ := bestIndexGo_spec ((g.update dt).players) hne
  refine ⟨k, hk, ?_, hmax, hstrict⟩
  rw [(update_end_state g dt h).2 hend, hkeq]

attribute [local semireducible] Rat.add Rat.sub Rat.mul Rat.inv Rat.ofScientific in
/-- Witness for C7: in gW all three players are eliminated in the same tick;
the tick enters the terminal state exactly once and the winner is player B
(index 1), who has the largest frozen time. -/
theorem claim_match_end_witness :
    (gW.gameOver = false ∧ (gW.update 0).gameOver = true ∧ (gW.update 0).players ≠ [] ∧
      countOut ((gW.update 0).players) = 3 ∧ (gW.update 0).winnerIndex = some 1) ∧
    (∃ k, k < (gW.update 0).players.length ∧
      (gW.update 0).winnerIndex = some (k : ℤ) ∧
      (∀ j, j < (gW.update 0).players.length →
        (agentAt (gW.update 0) j).time ≤ (agentAt (gW.update 0) k).time) ∧
      (∀ j, j < k → (agentAt (gW.update 0) j).time < (agentAt (gW.update 0) k).time)) :=
  ⟨⟨by decide, by decide, by decide, by decide, by decide⟩,
    (claim_match_end gW 0).2.2 (by decide) (by decide) (by decide)⟩

/-! ### C3: per-agent invariants over reachable states -/

/-- The bot decision either leaves the bot unchanged or performs a jump. -/
theorem handleBot_cases (speed : ℚ) (rng : BRand) (ix : ℕ) (obs : List Obstacle)
    (bot : Player) :
    (handleBot speed rng ix obs bot).1 = bot ∨
    (handleBot speed rng ix obs bot).1 = bot.jump := by
  unfold handleBot
  cases obs.find? (fun o => decide (bot.x < o.x + o.width)) with
  | none => exact Or.inl rfl
  | some o =>
    dsimp only
    split
    · split
      · exact Or.inr rfl
      · exact Or.inl rfl
    · exact Or.inl rfl

/-- The bot phase of the per-player step preserves lives, out, time and the
invulnerability state. -/
theorem botPhase_core (speed : ℚ) (rng : BRand) (ix : ℕ) (obs : List Obstacle) (p : Player) :
    (if p.isBot then handleBot speed rng ix obs p else (p, ix)).1.lives = p.lives ∧
    (if p.isBot then handleBot speed rng ix obs p else (p, ix)).1.out = p.out ∧
    (if p.isBot then handleBot speed rng ix obs p else (p, ix)).1.time = p.time := by
  by_cases hb : p.isBot = true
  · rw [if_pos (by simp [hb])]
    rcases handleBot_cases speed rng ix obs p with h | h <;> rw [h]
    · exact ⟨rfl, rfl, rfl⟩
    · exact ⟨(jump_preserves p).1, (jump_preserves p).2.1, (jump_preserves p).2.2.1⟩
  · rw [if_neg (by simp at hb; simp [hb])]
    exact ⟨rfl, rfl, rfl⟩

/-- Physics followed by the collision scan, for a live player: lives never
increase, a decrement is exactly one life and starts the invulnerability
window, time accrues by dt, the health invariant is preserved, and
elimination coincides exactly with lives reaching zero. -/
theorem collidePhase_spec (p porig : Player) (obs : List Obstacle) (dt : ℚ)
    (hl : p.lives = porig.lives) (ho : p.out = porig.out) (ht : p.time = porig.time)
    (hout : porig.out = false) :
    (collide (p.updatePhysics dt) obs).lives ≤ porig.lives ∧
    ((collide (p.updatePhysics dt) obs).lives < porig.lives →
      (collide (p.updatePhysics dt) obs).lives = porig.lives - 1 ∧
      (collide (p.updatePhysics dt) obs).invulnerable = true ∧
      (collide (p.updatePhysics dt) obs).invulnTimer = 7/10) ∧
    (collide (p.updatePhysics dt) obs).time = porig.time + dt ∧
    (PInv porig → PInv (collide (p.updatePhysics dt) obs)) ∧
    (PInv porig →
      ((collide (p.updatePhysics dt) obs).out = true ↔
        (collide (p.updatePhysics dt) obs).lives = 0)) := by
  have hpre := updatePhysics_preserves p dt
  have hl2 : (p.updatePhysics dt).lives = porig.lives := by rw [hpre.1, hl]
  have ho2 : (p.updatePhysics dt).out = false := by rw [hpre.2.1, ho, hout]
  have ht2 : (p.updatePhysics dt).time = porig.time + dt := by
    rw [updatePhysics_time p dt (by rw [ho, hout]), ht]
  have hunchanged : ∀ q : Player, q.lives = porig.lives → q.out = false →
      q.time = porig.time + dt →
      q.lives ≤ porig.lives ∧
      (q.lives < porig.lives → q.lives = porig.lives - 1 ∧ q.invulnerable = true ∧
        q.invulnTimer = 7/10) ∧
      q.time = porig.time + dt ∧
      (PInv porig → PInv q) ∧
      (PInv porig → (q.out = true ↔ q.lives = 0)) := by
    intro q hql hqo hqt
    refine ⟨le_of_eq hql, ?_, hqt, ?_, ?_⟩
    · intro hless
      rw [hql] at hless
      exact absurd hless (lt_irrefl _)
    · intro hPI
      constructor
      · intro habs; rw [hqo] at habs; exact absurd habs (by simp)
      · intro _; rw [hql]; exact hPI.2 hout
    · intro hPI
      have h1 : 1 ≤ porig.lives := hPI.2 hout
      constructor
      · intro habs; rw [hqo] at habs; exact absurd habs (by simp)
      · intro habs; rw [hql] at habs; omega
  unfold collide
  by_cases hinv : (p.updatePhysics dt).invulnerable = true
  · rw [if_pos (by simp [hinv])]
    exact hunchanged _ hl2 ho2 ht2
  · rw [if_neg (by simp at hinv; simp [hinv])]
    rcases collideAux_cases (p.updatePhysics dt) obs with hcc | ⟨hcc, hy, _⟩
    · rw [hcc]
      exact hunchanged _ hl2 ho2 ht2
    · rw [hcc]
      have hf := hitPlayer_fields (p.updatePhysics dt)
      have hlives : (hitPlayer (p.updatePhysics dt)).lives = porig.lives - 1 := by
        rw [hf.1, hl2]
      have htime : (hitPlayer (p.updatePhysics dt)).time = porig.time + dt := by
        rw [hf.2.2.2.1, ht2]
      have hout2 : ((hitPlayer (p.updatePhysics dt)).out = true ↔ porig.lives - 1 ≤ 0) := by
        rw [hf.2.2.2.2]
        constructor
        · intro hd
          rcases hd with hd | hd
          · rwa [hl2] at hd
          · rw [ho2] at hd; exact absurd hd (by simp)
        · intro hd; exact Or.inl (by rwa [hl2])
      refine ⟨by omega, ?_, htime, ?_, ?_⟩
      · intro _
        exact ⟨hlives, hf.2.1, hf.2.2.1⟩
      · intro hPI
        have h1 : 1 ≤ porig.lives := hPI.2 hout
        constructor
        · intro hob
          rw [hlives]
          have hd := hout2.mp hob
          omega
        · intro hob
          have hd : ¬(porig.lives - 1 ≤ 0) := by
            intro hle
            have habs := hout2.mpr hle
            rw [hob] at habs
            exact absurd habs (by simp)
          rw [hlives]
          omega
      · intro hPI
        have h1 : 1 ≤ porig.lives := hPI.2 hout
        rw [hout2, hlives]
        omega

/-- Full per-player step facts: an out player is untouched; otherwise lives
never increase, any decrement is exactly one life with the invulnerability
window started, time accrues by dt, the health invariant is preserved, and
elimination coincides exactly with lives reaching zero. -/
theorem processPlayer_spec (rng : BRand) (speed dt : ℚ) (obs : List Obstacle) (p : Player)
    (ix : ℕ) :
    (p.out = true → (processPlayer rng speed dt obs p ix).1 = p) ∧
    (processPlayer rng speed dt obs p ix).1.lives ≤ p.lives ∧
    ((processPlayer rng speed dt obs p ix).1.lives < p.lives →
      (processPlayer rng speed dt obs p ix).1.lives = p.lives - 1 ∧
      (processPlayer rng speed dt obs p ix).1.invulnerable = true ∧
      (processPlayer rng speed dt obs p ix).1.invulnTimer = 7/10) ∧
    (p.out = false → (processPlayer rng speed dt obs p ix).1.time = p.time + dt) ∧
    (PInv p → PInv (processPlayer rng speed dt obs p ix).1) ∧
    (PInv p → p.out = false →
      ((processPlayer rng speed dt obs p ix).1.out = true ↔
        (processPlayer rng speed dt obs p ix).1.lives = 0)) := by
  by_cases hout : p.out = true
  · have hred : processPlayer rng speed dt obs p ix = (p, ix) := by
      unfold processPlayer
      rw [if_pos (by simp [hout])]
    rw [hred]
    refine ⟨fun _ => rfl, le_refl _, ?_, ?_, fun h => h, ?_⟩
    · intro habs; exact absurd habs (lt_irrefl _)
    · intro habs; rw [hout] at habs; exact absurd habs (by simp)
    · intro _ habs; rw [hout] at habs; exact absurd habs (by simp)
  · have hout2 : p.out = false := by simpa using hout
    have hred : processPlayer rng speed dt obs p ix =
        (collide ((if p.isBot then handleBot speed rng ix obs p else (p, ix)).1.updatePhysics
          dt) obs,
          (if p.isBot then handleBot speed rng ix obs p else (p, ix)).2) := by
      unfold processPlayer
      rw [if_neg (by simp [hout2])]
    rw [hred]
    have hcore := botPhase_core speed rng ix obs p
    have hspec := collidePhase_spec
      (if p.isBot then handleBot speed rng ix obs p else (p, ix)).1 p obs dt
      hcore.1 hcore.2.1 hcore.2.2 hout2
    exact ⟨fun habs => absurd habs (by simp [hout2]), hspec.1, hspec.2.1, fun _ => hspec.2.2.1,
      hspec.2.2.2.1, fun hPI _ => hspec.2.2.2.2 hPI⟩

/-- The player loop preserves the list length. -/
theorem processPlayers_length (rng : BRand) (speed dt : ℚ) (obs : List Obstacle) :
    ∀ (ps : List Player) (ix : ℕ),
      (processPlayers rng speed dt obs ps ix).1.length = ps.length
  | [], _ => rfl
  | p :: rest, ix => by
    unfold processPlayers
    dsimp only
    rw [List.length_cons, List.length_cons, processPlayers_length rng speed dt obs rest _]

/-- Elementwise description of the player loop: position i of the output is
the per-player step applied to position i of the input, at some stream
index. -/
theorem processPlayers_getD (rng : BRand) (speed dt : ℚ) (obs : List Obstacle) :
    ∀ (ps : List Player) (ix : ℕ) (i : ℕ), i < ps.length →
      ∃ j, (processPlayers rng speed dt obs ps ix).1.getD i defaultPlayer =
        (processPlayer rng speed dt obs (ps.getD i defaultPlayer) j).1
  | [], _, i, h => absurd h (by simp)
  | p :: rest, ix, 0, _ => ⟨ix, rfl⟩
  | p :: rest, ix, i + 1, h => by
    obtain ⟨j, hj⟩ := processPlayers_getD rng speed dt obs rest
      (processPlayer rng speed dt obs p ix).2 i (by simpa using h)
    exact ⟨j, by simpa [processPlayers] using hj⟩

/-- Every player produced by the loop comes from a per-player step on some
input player. -/
theorem processPlayers_mem (rng : BRand) (speed dt : ℚ) (obs : List Obstacle) :
    ∀ (ps : List Player) (ix : ℕ), ∀ q ∈ (processPlayers rng speed dt obs ps ix).1,
      ∃ p ∈ ps, ∃ j, q = (processPlayer rng speed dt obs p j).1
  | [], _, q, hq => absurd hq (by simp [processPlayers])
  | p :: rest, ix, q, hq => by
    rw [show (processPlayers rng speed dt obs (p :: rest) ix).1 =
        (processPlayer rng speed dt obs p ix).1 ::
          (processPlayers rng speed dt obs rest (processPlayer rng speed dt obs p ix).2).1
      from rfl] at hq
    rcases List.mem_cons.mp hq with h | h
    · exact ⟨p, List.mem_cons_self p rest, ix, h⟩
    · obtain ⟨p2, hp2, j, hj⟩ := processPlayers_mem rng speed dt obs rest
        (processPlayer rng speed dt obs p ix).2 q h
      exact ⟨p2, List.mem_cons_of_mem p hp2, j, hj⟩

/-- Every player created by initializePlayers starts with 3 lives, not out. -/
theorem initializePlayers_init (names : List String) (botCount : ℕ) :
    ∀ p ∈ initializePlayers names botCount, p.lives = 3 ∧ p.out = false := by
  intro p hp
  unfold initializePlayers at hp
  simp only [List.mem_append, List.mem_map] at hp
  rcases hp with (⟨q, hq, heq⟩ | ⟨b, hb, heq⟩) | ⟨k, hk, heq⟩ <;> rw [← heq] <;>
    exact ⟨rfl, rfl⟩

/-- One tick preserves the health invariant of every player. -/
theorem update_PInv (g : Game) (dt : ℚ) (h : ∀ p ∈ g.players, PInv p) :
    ∀ p ∈ (g.update dt).players, PInv p := by
  by_cases hgo : g.gameOver = true
  · rw [update_gameOver g dt hgo]; exact h
  · have hgo2 : g.gameOver = false := by simpa using hgo
    rw [(update_proj g dt hgo2).2.2.2.2.2.1]
    unfold Game.tickPlayers
    intro q hq
    obtain ⟨p, hp, j, hj⟩ := processPlayers_mem g.rng (g.tickSpeed dt) dt
      (g.tickSpawn dt).2.2.1 g.players (g.tickSpawn dt).2.2.2 q hq
    rw [hj]
    exact (processPlayer_spec g.rng (g.tickSpeed dt) dt (g.tickSpawn dt).2.2.1 p j).2.2.2.2.1
      (h p hp)

/-- The health invariant holds for every player of every reachable state. -/
theorem reachable_PInv (names : List String) (botCount : ℕ) (cw : ℚ) (rng : BRand)
    (g : Game) (hg : Reachable names botCount cw rng g) : ∀ p ∈ g.players, PInv p := by
  induction hg with
  | base =>
    intro p hp
    have hp2 : p ∈ initializePlayers names botCount := hp
    have hini := initializePlayers_init names botCount p hp2
    constructor
    · intro habs; rw [hini.2] at habs; exact absurd habs (by simp)
    · intro _; rw [hini.1]; omega
  | tick g dt hgr ih => exact update_PInv g dt ih

/-- Lives change in the collision phase only for a vulnerable grounded
player with an overlapping obstacle. -/
theorem collide_lives_change (q : Player) (obsl : List Obstacle)
    (h : (collide q obsl).lives ≠ q.lives) :
    q.invulnerable = false ∧ 0 ≤ q.y ∧
      ∃ o ∈ obsl, o.x < q.x + q.width ∧ q.x < o.x + o.width := by
  unfold collide at h
  by_cases hinv : q.invulnerable = true
  · rw [if_pos (by simp [hinv])] at h
    exact absurd rfl h
  · have hinv2 : q.invulnerable = false := by simpa using hinv
    rw [if_neg (by simp [hinv2])] at h
    rcases collideAux_cases q obsl with hcc | ⟨_, hy, hov⟩
    · rw [hcc] at h; exact absurd rfl h
    · exact ⟨hinv2, hy, hov⟩

/-- C3: over any reachable state, one tick freezes an out player entirely
(in particular their time), never increases lives, decrements lives by
exactly one when it decrements them at all (starting the invulnerability
window), accrues time by dt for live players of a live match, flips out to
true exactly when lives reach zero (a one-way transition), and lives change
in the collision phase only via a vulnerable grounded overlap. -/
theorem claim_agent_invariants (names : List String) (botCount : ℕ) (cw : ℚ) (rng : BRand)
    (g : Game) (hg : Reachable names botCount cw rng g) (dt : ℚ) (i : ℕ)
    (hi : i < g.players.length) :
    ((agentAt g i).out = true → agentAt (g.update dt) i = agentAt g i) ∧
    (agentAt (g.update dt) i).lives ≤ (agentAt g i).lives ∧
    ((agentAt (g.update dt) i).lives < (agentAt g i).lives →
      (agentAt (g.update dt) i).lives = (agentAt g i).lives - 1 ∧
      (agentAt (g.update dt) i).invulnerable = true ∧
      (agentAt (g.update dt) i).invulnTimer = 7/10) ∧
    (g.gameOver = false → (agentAt g i).out = false →
      (agentAt (g.update dt) i).time = (agentAt g i).time + dt) ∧
    ((agentAt g i).out = false →
      ((agentAt (g.update dt) i).out = true ↔ (agentAt (g.update dt) i).lives = 0)) ∧
    (∀ (q : Player) (obsl : List Obstacle), (collide q obsl).lives ≠ q.lives →
      q.invulnerable = false ∧ 0 ≤ q.y ∧
        ∃ o ∈ obsl, o.x < q.x + q.width ∧ q.x < o.x + o.width) := by
  have hmem : agentAt g i ∈ g.players := by
    unfold agentAt
    rw [List.getD_eq_getElem g.players defaultPlayer hi]
    exact List.getElem_mem hi
  have hPI : PInv (agentAt g i) := reachable_PInv names botCount cw rng g hg _ hmem
  by_cases hgo : g.gameOver = true
  · rw [update_gameOver g dt hgo]
    refine ⟨fun _ => rfl, le_refl _, ?_, ?_, ?_, fun q obsl h => collide_lives_change q obsl h⟩
    · intro habs; exact absurd habs (lt_irrefl _)
    · intro habs; rw [hgo] at habs; exact absurd habs (by simp)
    · intro houtf
      have h1 : 1 ≤ (agentAt g i).lives := hPI.2 houtf
      rw [houtf]
      constructor
      · intro habs; exact absurd habs (by simp)
      · intro habs; omega
  · have hgo2 : g.gameOver = false := by simpa using hgo
    have hag : agentAt (g.update dt) i =
        (processPlayers g.rng (g.tickSpeed dt) dt (g.tickSpawn dt).2.2.1 g.players
          (g.tickSpawn dt).2.2.2).1.getD i defaultPlayer := by
      unfold agentAt
      rw [(update_proj g dt hgo2).2.2.2.2.2.1]
      rfl
    obtain ⟨j, hj⟩ := processPlayers_getD g.rng (g.tickSpeed dt) dt (g.tickSpawn dt).2.2.1
      g.players (g.tickSpawn dt).2.2.2 i hi
    have hag2 : agentAt (g.update dt) i =
        (processPlayer g.rng (g.tickSpeed dt) dt (g.tickSpawn dt).2.2.1
          (agentAt g i) j).1 := by
      rw [hag, hj]
      rfl
    have hspec := processPlayer_spec g.rng (g.tickSpeed dt) dt (g.tickSpawn dt).2.2.1
      (agentAt g i) j
    rw [hag2]
    exact ⟨hspec.1, hspec.2.1, hspec.2.2.1, fun _ h => hspec.2.2.2.1 h,
      fun h => hspec.2.2.2.2.2 hPI h, fun q obsl h => collide_lives_change q obsl h⟩

attribute [local semireducible] Rat.add Rat.sub Rat.mul Rat.inv Rat.ofScientific in
/-- Witness for C3: the freshly started concrete match is reachable and a
1-second tick respects the invariants at lane 0. -/
theorem claim_agent_invariants_witness :
    0 < gEx.players.length ∧
    (agentAt (gEx.update 1) 0).lives ≤ (agentAt gEx 0).lives :=
  ⟨by decide,
    (claim_agent_invariants ["A"] 2 800 rngZero gEx Reachable.base 1 0 (by decide)).2.1⟩
